import Mathlib

/-!
Verification of the conversation and tool orchestration core of the
google-gemini-rs client.  The definitions below are a shallow embedding of
the Rust sources: the message model of src/google/common.rs, the response
model of src/google/response.rs, the request model of src/google/request.rs,
the model name parsing of src/google/mod.rs, and the client operations of
src/client/mod.rs (merge_response, tool_call, process_tools, post and the
send methods).  External effects (the HTTP transport and the MCP tool
collaborators) are modelled as explicit inputs: the transport as an oracle
list of outcomes, a collaborator as a record holding its call_tool function.
-/

namespace Gemini

/-- Minimal JSON value model standing in for serde_json::Value.  Numbers are
modelled as integers, which covers every value the verified code inspects
(serde deserialization of an i32 from a non integral number fails, which the
integer model reproduces by construction). -/
inductive JsonValue where
  | null
  | bool (b : Bool)
  | num (n : Int)
  | str (s : String)
  | arr (elems : List JsonValue)
  | obj (fields : List (String × JsonValue))

/-- Role of a conversation turn (common.rs Role). -/
inductive Role where
  | user
  | model
deriving DecidableEq

/-- Inline binary blob (common.rs Blob). -/
structure Blob where
  mimeType : String
  data : String

/-- File reference (common.rs FileData). -/
structure GFileData where
  mimeType : String
  fileUri : String

/-- Tool invocation request emitted by the model (common.rs FunctionCall). -/
structure FunctionCall where
  id : Option String
  name : String
  args : Option (List (String × JsonValue))

/-- Tool invocation result constructed by the client (common.rs
FunctionResponse). -/
structure FunctionResponse where
  id : Option String
  name : String
  response : List (String × JsonValue)

/-- Code language tag (common.rs Language). -/
inductive GLanguage where
  | python
  | languageUnspecified

/-- Executable code part payload (common.rs ExecutableCode). -/
structure ExecutableCode where
  language : GLanguage
  code : String

/-- Code execution outcome (common.rs Outcome). -/
inductive GOutcome where
  | outcomeUnspecified
  | outcomeOk
  | outcomeFailed
  | outcomeDeadlineExceeded

/-- Code execution result payload (common.rs CodeExecutionResult). -/
structure CodeExecutionResult where
  outcome : GOutcome
  output : String

/-- Tagged union of content part kinds (common.rs Part). -/
inductive GPart where
  | thought (b : Bool)
  | text (s : String)
  | inlineData (blob : Blob)
  | functionCall (fc : FunctionCall)
  | functionResponse (fr : FunctionResponse)
  | fileData (fd : GFileData)
  | executableCode (ec : ExecutableCode)
  | codeExecutionResult (cer : CodeExecutionResult)

/-- A conversation turn (common.rs Content). -/
structure Content where
  parts : List GPart
  role : Role

/-- One response candidate (response.rs Candidate).  The metadata fields
(finish reason, safety ratings, citation and grounding metadata, log
probabilities, token counts) are never read by the client code under
verification and are omitted here. -/
structure Candidate where
  content : Content

/-- One streamed response fragment (response.rs ContentResponse).  The
prompt feedback, usage metadata and model version fields are never read by
the verified client code and are omitted. -/
structure ContentResponse where
  candidates : List Candidate
  error : Option JsonValue

/-- Schema type tag (request.rs Type). -/
inductive SchemaType where
  | typeUnspecified
  | string
  | number
  | integer
  | boolean
  | array
  | object
  | null
deriving DecidableEq

/-- Declaration side parameter schema (request.rs Schema).  The recursive
fields (properties, items, any_of) and the floating point bounds are
omitted: no verified code path inspects a Schema value, it is produced by
the (abstracted) serde conversion and carried opaquely inside a
FunctionDeclaration. -/
structure Schema where
  type : SchemaType
  format : Option String
  title : Option String
  description : Option String
  nullable : Option Bool
  enum : List String
  required : List String

/-- Declared function (request.rs FunctionDeclaration). -/
structure FunctionDeclaration where
  name : String
  description : String
  parameters : Option Schema
  response : Option Schema

/-- Retrieval mode (request.rs Mode). -/
inductive GMode where
  | modeUnspecified
  | modeDynamic

/-- Dynamic retrieval configuration (request.rs DynamicRetrievalConfig). -/
structure DynamicRetrievalConfig where
  mode : GMode
  dynamicThreshold : Int

/-- Google search retrieval configuration (request.rs GoogleSearchRetrieval). -/
structure GoogleSearchRetrieval where
  dynamicRetrievalConfig : DynamicRetrievalConfig

/-- URL context marker (request.rs UrlContext). -/
structure UrlContext

/-- A declared tool block (request.rs Tool). -/
structure GTool where
  functionDeclarations : List FunctionDeclaration
  googleSearchRetrieval : Option GoogleSearchRetrieval
  codeExecution : Option JsonValue
  googleSearch : Option JsonValue
  urlContext : Option UrlContext

/-- MCP tool input schema (rust_mcp_sdk ToolInputSchema): a JSON schema
object with optional properties and required lists. -/
structure ToolInputSchema where
  properties : Option (List (String × List (String × JsonValue)))
  required : Option (List String)

/-- MCP tool description (rust_mcp_sdk Tool); annotation fields unused by
the conversion are omitted. -/
structure McpTool where
  name : String
  description : Option String
  inputSchema : ToolInputSchema

/-- Errors of request.rs (request::Error).  Variants wrapping foreign error
values carry their message. -/
inductive RequestError where
  | mcpSdk (msg : String)
  | notFound (msg : String)
  | serde (msg : String)

/-- Embeds the From conversion of a rust_mcp_sdk Tool into a
FunctionDeclaration (request.rs, lines 125 to 137).  The fallible serde
based schema conversion (TryFrom of ToolInputSchema into Schema) is passed
in as conv; the source applies .ok() to its result, so a conversion failure
leaves parameters = none while the declaration itself is still produced. -/
def functionDeclarationOfMcpTool (conv : ToolInputSchema → Except RequestError Schema)
    (t : McpTool) : FunctionDeclaration :=
  { name := t.name
    description := t.description.getD "None"
    parameters := (conv t.inputSchema).toOption
    response := none }

/-- Embeds the From conversion of an MCP tool list into a declared tool
block (request.rs, lines 178 to 188). -/
def toolOfMcpTools (conv : ToolInputSchema → Except RequestError Schema)
    (ts : List McpTool) : GTool :=
  { functionDeclarations := ts.map (functionDeclarationOfMcpTool conv)
    googleSearchRetrieval := none
    codeExecution := none
    googleSearch := none
    urlContext := none }

/-- Error type of client/mod.rs (client::Error).  Variants wrapping foreign
error types carry their message. -/
inductive ClientError where
  | serdeJson (msg : String)
  | reqwest (msg : String)
  | request (code : Int) (message : String)
  | io (msg : String)
  | mcpSdk (msg : String)
  | unsupportedConfig (msg : String)
  | notFound (msg : String)
deriving DecidableEq

/-- One content item of an MCP tool call result (rust_mcp_sdk
CallToolResultContentItem).  Each variant carries the JSON object it
serializes to, which is what the client feeds into the resulting
FunctionResponse part. -/
inductive ToolContentItem where
  | textContent (payload : List (String × JsonValue))
  | imageContent (payload : List (String × JsonValue))
  | audioContent (payload : List (String × JsonValue))
  | embeddedResource (payload : List (String × JsonValue))

/-- An MCP collaborator (rust_mcp_sdk ClientRuntime) as seen by the client:
an opaque call_tool operation taking the tool name and arguments. -/
structure McpCollaborator where
  callTool : String → Option (List (String × JsonValue)) →
    Except ClientError (List ToolContentItem)

/-- Association lookup in a JSON object, as serde_json Map get. -/
def jLookup (key : String) : List (String × JsonValue) → Option JsonValue
  | [] => none
  | (k, v) :: rest => if k = key then some v else jLookup key rest

/-- serde_json deserialization of an i32 from a Value: succeeds only on an
integer within the i32 range. -/
def jsonToI32 (v : JsonValue) : Option Int :=
  match v with
  | .num n => if -2147483648 ≤ n ∧ n ≤ 2147483647 then some n else none
  | _ => none

/-- serde_json deserialization of a String from a Value. -/
def jsonToStr (v : JsonValue) : Option String :=
  match v with
  | .str s => some s
  | _ => none

/-- Embeds the From conversion of an embedded error Value into a client
Error (client/mod.rs, lines 38 to 53): reads the code and message fields of
the error object, with the source fallbacks of 0, the empty string and the
text Unknown error. -/
def errorFromValue (value : JsonValue) : ClientError :=
  match value with
  | .obj fields =>
      ClientError.request
        (match jLookup "code" fields with
         | some cv => (jsonToI32 cv).getD 0
         | none => 0)
        (match jLookup "message" fields with
         | some mv => (jsonToStr mv).getD "Unknown error"
         | none => "")
  | _ => ClientError.request 0 ""

/-- The request state (request.rs GenerateContentRequest).  The tool config,
safety settings, generation config and cached content fields are never read
by the verified operations and are omitted. -/
structure GenerateContentRequest where
  systemInstruction : Option Content
  contents : List Content
  tools : List GTool

/-- The client (client/mod.rs Client).  The HTTP handle, the model and the
API key only shape the URL of the transport call, which is abstracted into
the transport oracle; they are omitted. -/
structure Client where
  request : GenerateContentRequest
  mcps : List McpCollaborator

/-- The turns a single error free fragment contributes to history: each
candidate content with at least one part, in order (the inner loop of
merge_response). -/
def nonEmptyCandidateTurns (r : ContentResponse) : List Content :=
  r.candidates.filterMap (fun c => if c.content.parts.isEmpty then none else some c.content)

/-- Loop body of Client::merge_response: walks the fragments in arrival
order, appending candidate turns of error free fragments to the contents and
collecting the fragments themselves, and stops with the embedded error of
the first fragment that carries one (the contents accumulated so far are
kept, matching the in place mutation of the source). -/
def mergeGo (contents : List Content) (success : List ContentResponse) :
    List ContentResponse → List Content × Except ClientError (List ContentResponse)
  | [] => (contents, .ok success)
  | r :: rest =>
      match r.error with
      | some e => (contents, .error (errorFromValue e))
      | none => mergeGo (contents ++ nonEmptyCandidateTurns r) (success ++ [r]) rest

/-- Embeds Client::merge_response (client/mod.rs, lines 239 to 260). -/
def mergeResponse (st : Client) (responses : List ContentResponse) :
    Client × Except ClientError (List ContentResponse) :=
  match mergeGo st.request.contents [] responses with
  | (contents, result) =>
      ({ st with request := { st.request with contents := contents } }, result)

/-- Conversion of one MCP result content item into a FunctionResponse part,
following the four armed match in Client::tool_call. -/
def contentItemToPart (name : String) (item : ToolContentItem) : GPart :=
  match item with
  | .textContent payload => .functionResponse { id := none, name := name, response := payload }
  | .imageContent payload => .functionResponse { id := none, name := name, response := payload }
  | .audioContent payload => .functionResponse { id := none, name := name, response := payload }
  | .embeddedResource payload => .functionResponse { id := none, name := name, response := payload }

/-- Index of the first element satisfying the predicate, mirroring the
iter().enumerate().find() scan of Client::tool_call. -/
def findFirstIdx (p : GTool → Bool) : List GTool → Option Nat
  | [] => none
  | t :: rest => if p t then some 0 else (findFirstIdx p rest).map (· + 1)

/-- Embeds Client::tool_call (client/mod.rs, lines 262 to 333): finds the
first declared tool block containing a function with the invocation name,
takes the collaborator at the same index, invokes it, and converts each
returned content item into a FunctionResponse part.  The self borrow is
immutable in the source, so no state is returned. -/
def toolCall (st : Client) (fc : FunctionCall) : Except ClientError (List GPart) :=
  match findFirstIdx
      (fun t => t.functionDeclarations.any (fun f => f.name == fc.name))
      st.request.tools with
  | none => .error (.notFound fc.name)
  | some index =>
      match st.mcps.get? index with
      | none => .error (.notFound ("Tool for function call " ++ fc.name))
      | some t =>
          match t.callTool fc.name fc.args with
          | .error e => .error e
          | .ok response => .ok (response.map (contentItemToPart fc.name))

/-- Maps a part to its pending tool invocation, mirroring the exhaustive
match in Client::process_tools: every kind other than a FunctionCall is
ignored. -/
def partToFunctionCall (p : GPart) : Option FunctionCall :=
  match p with
  | .thought _ | .text _ | .inlineData _ | .fileData _
  | .executableCode _ | .codeExecutionResult _ | .functionResponse _ => none
  | .functionCall fc => some fc

/-- The pending tool invocations of a batch, in discovery order (the nested
collection loops of Client::process_tools). -/
def collectFunctionCalls (responses : List ContentResponse) : List FunctionCall :=
  responses.flatMap (fun r =>
    r.candidates.flatMap (fun c => c.content.parts.filterMap partToFunctionCall))

/-- Dispatch loop of Client::process_tools: for each invocation in order,
call the tool and push one user turn holding the returned parts; stop at the
first failing invocation, keeping the turns already pushed. -/
def processToolsGo (st : Client) : List FunctionCall → Client × Except ClientError Unit
  | [] => (st, .ok ())
  | fc :: rest =>
      match toolCall st fc with
      | .error e => (st, .error e)
      | .ok parts =>
          processToolsGo
            { st with request := { st.request with
                contents := st.request.contents ++ [{ parts := parts, role := Role.user }] } }
            rest

/-- Embeds Client::process_tools (client/mod.rs, lines 337 to 372). -/
def processTools (st : Client) (responses : List ContentResponse) :
    Client × Except ClientError Bool :=
  let fnCalls := collectFunctionCalls responses
  if fnCalls.isEmpty then (st, .ok false)
  else
    match processToolsGo st fnCalls with
    | (st', .ok ()) => (st', .ok true)
    | (st', .error e) => (st', .error e)

/-- One transport round of Client::do_post: the transport outcome is
supplied by the environment (the reqwest send and JSON decode), then the
batch is consolidated. -/
def doPost (st : Client) (transport : Except ClientError (List ContentResponse)) :
    Client × Except ClientError (List ContentResponse) :=
  match transport with
  | .error e => (st, .error e)
  | .ok responses => mergeResponse st responses

/-- The while loop of Client::post: dispatch pending tools and resubmit
until a consolidated batch has no pending tool call.  The remaining
transport outcomes are supplied as a finite oracle list; running out of
oracle entries models an unavailable transport. -/
def postLoop (st : Client) (responses : List ContentResponse) :
    List (Except ClientError (List ContentResponse)) →
    Client × Except ClientError (List ContentResponse)
  | [] =>
      (match processTools st responses with
       | (st', .error e) => (st', .error e)
       | (st', .ok false) => (st', .ok responses)
       | (st', .ok true) => (st', .error (.reqwest "transport unavailable")))
  | b :: rest =>
      match processTools st responses with
      | (st', .error e) => (st', .error e)
      | (st', .ok false) => (st', .ok responses)
      | (st', .ok true) =>
          match doPost st' b with
          | (st'', .error e) => (st'', .error e)
          | (st'', .ok responses') => postLoop st'' responses' rest

/-- Embeds Client::post (client/mod.rs, lines 387 to 397). -/
def post (st : Client) :
    List (Except ClientError (List ContentResponse)) →
    Client × Except ClientError (List ContentResponse)
  | [] => (st, .error (.reqwest "transport unavailable"))
  | b :: rest =>
      match doPost st b with
      | (st', .error e) => (st', .error e)
      | (st', .ok responses) => postLoop st' responses rest

/-- The user turn push at the head of each send method. -/
def pushUserTurn (st : Client) (parts : List GPart) : Client :=
  { st with request := { st.request with
      contents := st.request.contents ++ [{ parts := parts, role := Role.user }] } }

/-- Embeds Client::send_text (client/mod.rs, lines 401 to 408). -/
def sendText (st : Client) (text : String)
    (batches : List (Except ClientError (List ContentResponse))) :
    Client × Except ClientError (List ContentResponse) :=
  post (pushUserTurn st [GPart.text text]) batches

/-- Embeds Client::send_image (client/mod.rs, lines 410 to 417). -/
def sendImage (st : Client) (blob : Blob)
    (batches : List (Except ClientError (List ContentResponse))) :
    Client × Except ClientError (List ContentResponse) :=
  post (pushUserTurn st [GPart.inlineData blob]) batches

/-- Embeds Client::send_file_data (client/mod.rs, lines 419 to 426). -/
def sendFileData (st : Client) (data : GFileData)
    (batches : List (Except ClientError (List ContentResponse))) :
    Client × Except ClientError (List ContentResponse) :=
  post (pushUserTurn st [GPart.fileData data]) batches

/-- Modality tags (common.rs Modality). -/
inductive Modality where
  | modalityUnspecified
  | text
  | image
  | audio
  | video
deriving DecidableEq

/-- Supported model variants (google/mod.rs GoogleModelVariant). -/
inductive GoogleModelVariant where
  | gemini20FlashExpImageGen
  | gemini20Flash
  | gemini25Flash
  | gemini25Pro
  | gemini25FlashLight
deriving DecidableEq

def GEMINI_2_0_FLASH_EXP_IMAGE_GEN : List Char := "gemini-2.0-flash-exp-image-generation".data

def GEMINI_2_0_FLASH : List Char := "gemini-2.0-flash".data

def GEMINI_2_5_FLASH : List Char := "gemini-2.5-flash".data

def GEMINI_2_5_FLASH_LITE : List Char := "gemini-2.5-flash-lite".data

def GEMINI_2_5_PRO : List Char := "gemini-2.5-pro".data

/-- Base name of a model variant (google/mod.rs GoogleModelVariant::name).
Strings are modelled as character lists to state the parsing claims. -/
def GoogleModelVariant.name : GoogleModelVariant → List Char
  | .gemini20FlashExpImageGen => GEMINI_2_0_FLASH_EXP_IMAGE_GEN
  | .gemini20Flash => GEMINI_2_0_FLASH
  | .gemini25Flash => GEMINI_2_5_FLASH
  | .gemini25Pro => GEMINI_2_5_PRO
  | .gemini25FlashLight => GEMINI_2_5_FLASH_LITE

/-- Input modalities of a variant (google/mod.rs GoogleModelVariant::inputs). -/
def GoogleModelVariant.inputs : GoogleModelVariant → List Modality
  | .gemini20FlashExpImageGen => [Modality.text, Modality.video, Modality.image, Modality.audio]
  | .gemini20Flash => [Modality.text, Modality.video, Modality.image, Modality.audio]
  | .gemini25Flash => [Modality.text, Modality.video, Modality.image, Modality.audio]
  | .gemini25Pro => [Modality.text, Modality.video, Modality.image, Modality.audio]
  | .gemini25FlashLight => [Modality.text, Modality.video, Modality.image, Modality.audio]

/-- Output modalities of a variant (google/mod.rs GoogleModelVariant::outputs). -/
def GoogleModelVariant.outputs : GoogleModelVariant → List Modality
  | .gemini20FlashExpImageGen => [Modality.text, Modality.image]
  | .gemini20Flash => [Modality.text]
  | .gemini25Flash => [Modality.text]
  | .gemini25Pro => [Modality.text]
  | .gemini25FlashLight => [Modality.text]

/-- A resolved model (google/mod.rs GoogleModel). -/
structure GoogleModel where
  variant : GoogleModelVariant
  name : List Char
  input : List Modality
  output : List Modality
deriving DecidableEq

/-- Embeds GoogleModel::new (google/mod.rs, lines 104 to 122): the name is
the variant base name, with a dash and the suffix appended when one is
given. -/
def GoogleModel.new (variant : GoogleModelVariant) (suffix : Option (List Char)) : GoogleModel :=
  { variant := variant
    name :=
      match suffix with
      | some s => variant.name ++ ('-' :: s)
      | none => variant.name
    input := variant.inputs
    output := variant.outputs }

/-- Error type of google/mod.rs (google::Error). -/
inductive GoogleError where
  | notFound (msg : List Char)
deriving DecidableEq

/-- Does the second list start with the first one. -/
def beginsWith : List Char → List Char → Bool
  | [], _ => true
  | _ :: _, [] => false
  | p :: ps, c :: cs => if p = c then beginsWith ps cs else false

/-- Rust str::split_once for character lists: splits around the first
occurrence of the pattern, or returns none when the pattern does not
occur. -/
def splitOnceChars (pat : List Char) : List Char → Option (List Char × List Char)
  | [] => if beginsWith pat [] then some ([], []) else none
  | c :: rest =>
      if beginsWith pat (c :: rest) then some ([], (c :: rest).drop pat.length)
      else
        match splitOnceChars pat rest with
        | some (pre, post) => some (c :: pre, post)
        | none => none

def previewPat : List Char := "-preview".data

/-- The match over base model names inside the TryFrom conversion of a
string into a GoogleModel (google/mod.rs, lines 136 to 143). -/
def lookupVariant (model : List Char) : Option GoogleModelVariant :=
  if model = GEMINI_2_5_PRO then some .gemini25Pro
  else if model = GEMINI_2_5_FLASH then some .gemini25Flash
  else if model = GEMINI_2_5_FLASH_LITE then some .gemini25FlashLight
  else if model = GEMINI_2_0_FLASH then some .gemini20Flash
  else if model = GEMINI_2_0_FLASH_EXP_IMAGE_GEN then some .gemini20FlashExpImageGen
  else none

/-- Embeds the TryFrom conversion of a string into a GoogleModel
(google/mod.rs, lines 124 to 147). -/
def googleModelTryFrom (value : List Char) : Except GoogleError GoogleModel :=
  match splitOnceChars previewPat value with
  | some (model, rest) =>
      match lookupVariant model with
      | some v => .ok (GoogleModel.new v (some ("preview".data ++ rest)))
      | none => .error (.notFound ("No such model: ".data ++ value))
  | none =>
      match lookupVariant value with
      | some v => .ok (GoogleModel.new v none)
      | none => .error (.notFound ("No such model: ".data ++ value))

/-- Specification side predicate: is the part a tool invocation request. -/
def isFunctionCallPart (p : GPart) : Bool :=
  match p with
  | .functionCall _ => true
  | _ => false

/-- Specification side predicate: does any part of any candidate of any
fragment of the batch request a tool invocation. -/
def hasPendingToolCall (responses : List ContentResponse) : Bool :=
  responses.any (fun r =>
    r.candidates.any (fun c => c.content.parts.any isFunctionCallPart))

/-- Specification side: the part of a model string before the first
occurrence of the preview marker, or the whole string when the marker is
absent. -/
def preSplit (value : List Char) : List Char :=
  match splitOnceChars previewPat value with
  | some (model, _) => model
  | none => value

/-- The supported base model names. -/
def supportedBaseNames : List (List Char) :=
  [GEMINI_2_0_FLASH_EXP_IMAGE_GEN, GEMINI_2_0_FLASH, GEMINI_2_5_FLASH,
   GEMINI_2_5_FLASH_LITE, GEMINI_2_5_PRO]

/-! Concrete scenario data used by witnesses and counterexamples. -/

/-- A freshly constructed client with empty history and no tools. -/
def client0 : Client :=
  { request := { systemInstruction := none, contents := [], tools := [] }, mcps := [] }

/-- The embedded error object of the quota scenario. -/
def quotaErrorValue : JsonValue :=
  .obj [("code", .num 7), ("message", .str "quota")]

/-- A fragment carrying the quota error and no candidates. -/
def quotaFragment : ContentResponse :=
  { candidates := [], error := some quotaErrorValue }

/-- An error free fragment with one text candidate of role model. -/
def modelTextFragment : ContentResponse :=
  { candidates := [{ content := { parts := [GPart.text "hi"], role := Role.model } }],
    error := none }

/-- An error free fragment whose single candidate carries role user. -/
def userTextFragment : ContentResponse :=
  { candidates := [{ content := { parts := [GPart.text "hi"], role := Role.user } }],
    error := none }

/-- A collaborator whose tools always answer with one text content item. -/
def echoCollaborator : McpCollaborator :=
  { callTool := fun _ _ =>
      .ok [ToolContentItem.textContent [("type", .str "text"), ("text", .str "42")]] }

/-- Declaration of the test tool f. -/
def fDeclaration : FunctionDeclaration :=
  { name := "f", description := "test tool", parameters := none, response := none }

/-- Declared tool block holding only f. -/
def fToolBlock : GTool :=
  { functionDeclarations := [fDeclaration], googleSearchRetrieval := none,
    codeExecution := none, googleSearch := none, urlContext := none }

/-- A client with the tool f declared and its collaborator registered. -/
def toolClient : Client :=
  { request := { systemInstruction := none, contents := [], tools := [fToolBlock] },
    mcps := [echoCollaborator] }

/-- A client with the tool f declared but no collaborator registered. -/
def toolClientNoMcp : Client :=
  { request := { systemInstruction := none, contents := [], tools := [fToolBlock] },
    mcps := [] }

/-- Invocation of the declared tool f. -/
def fCall : FunctionCall := { id := none, name := "f", args := none }

/-- Invocation of an undeclared tool g. -/
def gCall : FunctionCall := { id := none, name := "g", args := none }

/-- Model turn requesting the tool f twice. -/
def twoCallContent : Content :=
  { parts := [GPart.functionCall fCall, GPart.functionCall fCall], role := Role.model }

/-- Fragment whose single candidate requests the tool f twice. -/
def twoCallFragment : ContentResponse :=
  { candidates := [{ content := twoCallContent }], error := none }

/-- A schema produced by the successful branch of the test conversion. -/
def schemaW : Schema :=
  { type := .object, format := none, title := none, description := none,
    nullable := none, enum := [], required := [] }

/-- A concrete schema conversion that fails exactly when the source schema
has no required list, standing in for a structurally unmappable schema. -/
def convW : ToolInputSchema → Except RequestError Schema := fun s =>
  match s.required with
  | some _ => .ok schemaW
  | none => .error (.serde "unsupported constraint combination")

/-- A tool whose schema convW cannot map. -/
def badTool : McpTool :=
  { name := "bad_tool", description := some "fails",
    inputSchema := { properties := none, required := none } }

/-- A tool whose schema convW maps fine. -/
def goodTool : McpTool :=
  { name := "good_tool", description := some "works",
    inputSchema := { properties := none, required := some [] } }

/-! Helper lemmas about consolidation. -/

/-- The state update shared by every history mutation of the client: append
the given turns at the end of the conversation. -/
def appendTurns (st : Client) (ts : List Content) : Client :=
  { st with request := { st.request with contents := st.request.contents ++ ts } }

/-- Running the merge loop over error free fragments appends exactly the
non empty candidate turns, in arrival order, and succeeds with all the
fragments. -/
theorem mergeGo_noError (rs : List ContentResponse) :
    ∀ (contents : List Content) (success : List ContentResponse),
      (∀ r ∈ rs, r.error = none) →
      mergeGo contents success rs =
        (contents ++ rs.flatMap nonEmptyCandidateTurns, .ok (success ++ rs)) := by
  induction rs with
  | nil => intro contents success _; simp [mergeGo]
  | cons r rest ih =>
      intro contents success h
      have hr : r.error = none := h r (List.mem_cons_self r rest)
      have hrest : ∀ x ∈ rest, x.error = none := fun x hx => h x (List.mem_cons_of_mem r hx)
      simp only [mergeGo, hr]
      rw [ih _ _ hrest]
      simp [List.append_assoc]

/-- Running the merge loop over a batch whose first error sits after the
error free fragments of pre appends exactly the turns of pre and stops with
the embedded error. -/
theorem mergeGo_firstError (pre : List ContentResponse) :
    ∀ (contents : List Content) (success : List ContentResponse)
      (r : ContentResponse) (rest : List ContentResponse) (e : JsonValue),
      (∀ x ∈ pre, x.error = none) → r.error = some e →
      mergeGo contents success (pre ++ r :: rest) =
        (contents ++ pre.flatMap nonEmptyCandidateTurns, .error (errorFromValue e)) := by
  induction pre with
  | nil =>
      intro contents success r rest e _ hr
      simp [mergeGo, hr]
  | cons p pre ih =>
      intro contents success r rest e hpre hr
      have hp : p.error = none := hpre p (List.mem_cons_self p pre)
      have hpre' : ∀ x ∈ pre, x.error = none := fun x hx => hpre x (List.mem_cons_of_mem p hx)
      rw [List.cons_append]
      simp only [mergeGo, hp]
      rw [ih _ _ r rest e hpre' hr]
      simp [List.append_assoc]

/-! Claim C1: consolidation of a batch with an embedded error. -/

/-- C1 (amended).  When a batch consists of error free fragments followed by
a fragment carrying an embedded error, merge_response returns that error and
appends exactly the non empty candidate turns of the error free fragments
that precede the error fragment (in arrival order); neither the error
fragment nor any later fragment contributes a turn, and the previously
consolidated history is retained as a prefix.  The original claim that no
turn at all of the batch is appended is refuted by
mergeResponse_all_or_nothing_cex. -/
theorem mergeResponse_first_error (st : Client) (pre : List ContentResponse)
    (r : ContentResponse) (rest : List ContentResponse) (e : JsonValue)
    (hpre : ∀ x ∈ pre, x.error = none) (hr : r.error = some e) :
    mergeResponse st (pre ++ r :: rest) =
      (appendTurns st (pre.flatMap nonEmptyCandidateTurns), .error (errorFromValue e)) := by
  simp only [mergeResponse, mergeGo_firstError pre st.request.contents [] r rest e hpre hr]
  rfl

/-- Witness for C1: the two fragment quota batch, evaluated concretely. -/
theorem mergeResponse_first_error_witness :
    mergeResponse client0 [modelTextFragment, quotaFragment] =
      (appendTurns client0 ([modelTextFragment].flatMap nonEmptyCandidateTurns),
       .error (errorFromValue quotaErrorValue)) :=
  mergeResponse_first_error client0 [modelTextFragment] quotaFragment [] quotaErrorValue
    (by intro x hx; rw [List.mem_singleton] at hx; subst hx; rfl) rfl

/-- Counterexample for C1 as stated: in the batch [modelTextFragment,
quotaFragment] the error fragment arrives second, the call returns the
quota error, yet the turn derived from the first (error free) fragment HAS
been appended to the previously empty history, contradicting the all or
nothing reading. -/
theorem mergeResponse_all_or_nothing_cex :
    (mergeResponse client0 [modelTextFragment, quotaFragment]).2 =
      .error (.request 7 "quota") ∧
    (mergeResponse client0 [modelTextFragment, quotaFragment]).1.request.contents =
      [{ parts := [GPart.text "hi"], role := Role.model }] ∧
    client0.request.contents = [] :=
  ⟨rfl, rfl, rfl⟩

/-! Claim C9: consolidating the empty batch. -/

/-- C9.  Consolidating an empty fragment list returns an empty success list
and leaves the client, in particular its conversation history, unchanged. -/
theorem mergeResponse_empty_noop (st : Client) :
    mergeResponse st [] = (st, .ok []) := rfl

/-! Claim C6: consolidation of an error free batch. -/

/-- C6 (amended).  Consolidating an error free batch returns the full input
list and appends, in arrival order, exactly those candidate turns that have
at least one part; each turn is appended verbatim, with the role it carries
in the response.  The original claim that the turns are appended as model
turns is refuted by mergeResponse_model_role_cex, since a candidate turn
carrying role user is appended with role user. -/
theorem mergeResponse_success_appends (st : Client) (rs : List ContentResponse)
    (h : ∀ r ∈ rs, r.error = none) :
    mergeResponse st rs =
      (appendTurns st (rs.flatMap nonEmptyCandidateTurns), .ok rs) := by
  simp only [mergeResponse, mergeGo_noError rs st.request.contents [] h]
  rfl

/-- Witness for C6: a one fragment batch with a single candidate. -/
theorem mergeResponse_success_appends_witness :
    mergeResponse client0 [modelTextFragment] =
      (appendTurns client0 ([modelTextFragment].flatMap nonEmptyCandidateTurns),
       .ok [modelTextFragment]) :=
  mergeResponse_success_appends client0 [modelTextFragment]
    (by intro x hx; rw [List.mem_singleton] at hx; subst hx; rfl)

/-- Counterexample for C6 as stated: a candidate turn carrying role user is
appended with role user, not as a model turn. -/
theorem mergeResponse_model_role_cex :
    (mergeResponse client0 [userTextFragment]).1.request.contents.map Content.role =
      [Role.user] ∧
    (mergeResponse client0 [userTextFragment]).2 = .ok [userTextFragment] ∧
    Role.user ≠ Role.model :=
  ⟨rfl, rfl, by decide⟩

/-! Claim C4: the quota error scenario of a send call. -/

/-- C4 (amended).  When the transport answers a send_text call with a single
fragment embedding the error object with code 7 and message quota, the call
fails with the typed request error carrying code 7 and message quota, and
the turn sequence after the failed call equals the turn sequence from before
the call with the pushed user turn appended; no turn derived from the
response batch is appended.  The original claim that the turn sequence is
unchanged from before the call is refuted by sendText_history_cex, because
send_text pushes the user turn before posting and a failed send does not
roll it back. -/
theorem sendText_quota_error (st : Client) (text : String) (cands : List Candidate) :
    sendText st text [.ok [{ candidates := cands, error := some quotaErrorValue }]] =
      (pushUserTurn st [GPart.text text], .error (.request 7 "quota")) := rfl

/-- Counterexample for C4 as stated: after the failed quota send the history
differs from the history before the call (it gained the user turn). -/
theorem sendText_history_cex :
    (sendText client0 "x" [.ok [quotaFragment]]).2 = .error (.request 7 "quota") ∧
    (sendText client0 "x" [.ok [quotaFragment]]).1.request.contents ≠
      client0.request.contents :=
  ⟨rfl, List.cons_ne_nil _ _⟩

/-! Helper lemmas about tool dispatch. -/

/-- The parts produced by a successful tool call (empty on failure); used to
state the dispatch theorems. -/
def toolCallParts (st : Client) (fc : FunctionCall) : List GPart :=
  match toolCall st fc with
  | .ok ps => ps
  | .error _ => []

/-- tool_call only reads the declared tools and the collaborator list, so
appending turns to the conversation does not change its result. -/
theorem toolCall_appendTurns (st : Client) (ts : List Content) (fc : FunctionCall) :
    toolCall (appendTurns st ts) fc = toolCall st fc := rfl

/-- Same invariance, lifted to the parts extractor. -/
theorem toolCallParts_appendTurns (st : Client) (ts : List Content) (fc : FunctionCall) :
    toolCallParts (appendTurns st ts) fc = toolCallParts st fc := rfl

/-- Appending twice is appending the concatenation. -/
theorem appendTurns_appendTurns (st : Client) (a b : List Content) :
    appendTurns (appendTurns st a) b = appendTurns st (a ++ b) := by
  simp [appendTurns, List.append_assoc]

/-- When every invocation dispatches successfully, the dispatch loop appends
one user turn per invocation, in order, each holding the parts its tool call
returned. -/
theorem processToolsGo_ok (calls : List FunctionCall) :
    ∀ st : Client, (∀ fc ∈ calls, ∃ ps, toolCall st fc = .ok ps) →
      processToolsGo st calls =
        (appendTurns st (calls.map (fun fc => { parts := toolCallParts st fc, role := Role.user })),
         .ok ()) := by
  induction calls with
  | nil => intro st _; simp [processToolsGo, appendTurns]
  | cons fc rest ih =>
      intro st h
      obtain ⟨ps, hps⟩ := h fc (List.mem_cons_self fc rest)
      have hparts : toolCallParts st fc = ps := by simp [toolCallParts, hps]
      have hrest : ∀ fc' ∈ rest,
          ∃ ps', toolCall (appendTurns st [{ parts := ps, role := Role.user }]) fc' = .ok ps' := by
        intro fc' h'
        obtain ⟨ps', hps'⟩ := h fc' (List.mem_cons_of_mem fc h')
        exact ⟨ps', by rw [toolCall_appendTurns]; exact hps'⟩
      simp only [processToolsGo, hps]
      show processToolsGo (appendTurns st [{ parts := ps, role := Role.user }]) rest = _
      rw [ih _ hrest]
      simp only [toolCallParts_appendTurns]
      rw [appendTurns_appendTurns]
      simp [hparts]

/-! Claim C2: turns appended by a dispatch cycle. -/

/-- C2 (amended).  A dispatch cycle that resolves K pending invocations
(collected across all fragments of the batch, in discovery order) appends
one new user turn PER invocation, K turns in total and in discovery order,
the i-th turn holding exactly the result parts returned for the i-th
invocation; the scan result is true exactly when there was at least one
invocation.  The original claim that exactly one user turn holding all the
result parts of the batch is appended is refuted by
processTools_single_turn_cex. -/
theorem processTools_one_turn_per_call (st : Client) (rs : List ContentResponse)
    (h : ∀ fc ∈ collectFunctionCalls rs, ∃ ps, toolCall st fc = .ok ps) :
    processTools st rs =
      (appendTurns st ((collectFunctionCalls rs).map
          (fun fc => { parts := toolCallParts st fc, role := Role.user })),
       .ok (!(collectFunctionCalls rs).isEmpty)) := by
  by_cases hE : (collectFunctionCalls rs).isEmpty = true
  · have hnil : collectFunctionCalls rs = [] := by
      cases hcol : collectFunctionCalls rs with
      | nil => rfl
      | cons a l => rw [hcol] at hE; simp [List.isEmpty] at hE
    simp [processTools, hnil, appendTurns]
  · have hE' : (collectFunctionCalls rs).isEmpty = false := by
      cases hv : (collectFunctionCalls rs).isEmpty
      · rfl
      · exact absurd hv hE
    simp only [processTools, hE', Bool.false_eq_true, if_false]
    rw [processToolsGo_ok (collectFunctionCalls rs) st h]
    simp [hE']

/-- Witness for C2: the two invocation batch, dispatched concretely. -/
theorem processTools_one_turn_per_call_witness :
    processTools toolClient [twoCallFragment] =
      (appendTurns toolClient ((collectFunctionCalls [twoCallFragment]).map
          (fun fc => { parts := toolCallParts toolClient fc, role := Role.user })),
       .ok (!(collectFunctionCalls [twoCallFragment]).isEmpty)) :=
  processTools_one_turn_per_call toolClient [twoCallFragment] (by
    intro fc hfc
    have hcol : collectFunctionCalls [twoCallFragment] = [fCall, fCall] := rfl
    rw [hcol, List.mem_cons] at hfc
    rcases hfc with rfl | h1
    · exact ⟨_, rfl⟩
    · rw [List.mem_singleton] at h1
      subst h1
      exact ⟨_, rfl⟩)

/-- Counterexample for C2 as stated: a cycle resolving two invocations
appends two user turns to the initially empty history, not one. -/
theorem processTools_single_turn_cex :
    (processTools toolClient [twoCallFragment]).2 = .ok true ∧
    (processTools toolClient [twoCallFragment]).1.request.contents.length = 2 ∧
    toolClient.request.contents = [] :=
  ⟨rfl, rfl, rfl⟩

/-! Helper lemmas about the scan and the driver loop. -/

/-- A scan over blocks none of which satisfies the predicate finds no
index. -/
theorem findFirstIdx_eq_none (p : GTool → Bool) (l : List GTool)
    (h : ∀ t ∈ l, p t = false) : findFirstIdx p l = none := by
  induction l with
  | nil => rfl
  | cons a l ih =>
      have ha : p a = false := h a (List.mem_cons_self a l)
      simp [findFirstIdx, ha, ih (fun t ht => h t (List.mem_cons_of_mem a ht))]

/-- The per part collection keeps exactly the FunctionCall parts, so it is
empty exactly when no part is a tool invocation request. -/
theorem filterMap_partToFunctionCall_eq_nil (ps : List GPart) :
    ps.filterMap partToFunctionCall = [] ↔ ps.any isFunctionCallPart = false := by
  induction ps with
  | nil => simp
  | cons p ps ih =>
      cases p <;> simp [partToFunctionCall, isFunctionCallPart, List.filterMap_cons, ih]

/-- A part maps to no invocation exactly when it is not a FunctionCall. -/
theorem partToFunctionCall_eq_none (p : GPart) :
    partToFunctionCall p = none ↔ isFunctionCallPart p = false := by
  cases p <;> simp [partToFunctionCall, isFunctionCallPart]

/-- Lifting of the previous lemma to a candidate list. -/
theorem candidates_collect_eq_nil (cs : List Candidate) :
    cs.flatMap (fun c => c.content.parts.filterMap partToFunctionCall) = [] ↔
      cs.any (fun c => c.content.parts.any isFunctionCallPart) = false := by
  induction cs with
  | nil => simp
  | cons c cs ih =>
      simp only [List.flatMap_cons, List.append_eq_nil, List.any_cons, Bool.or_eq_false_iff,
        filterMap_partToFunctionCall_eq_nil, ih]

/-- The collected invocation list of a batch is empty exactly when the batch
holds no tool invocation request part. -/
theorem collect_eq_nil_iff (rs : List ContentResponse) :
    collectFunctionCalls rs = [] ↔ hasPendingToolCall rs = false := by
  induction rs with
  | nil => simp [collectFunctionCalls, hasPendingToolCall]
  | cons r rs ih =>
      simp only [collectFunctionCalls, hasPendingToolCall, List.flatMap_cons, List.any_cons,
        List.append_eq_nil] at ih ⊢
      rw [candidates_collect_eq_nil, ih]
      constructor
      · rintro ⟨h1, h2⟩
        simp [h1, h2]
      · intro h
        rcases Bool.or_eq_false_iff.mp h with ⟨h1, h2⟩
        exact ⟨h1, h2⟩

/-- The loop continuation flag returned by a successful process_tools call
equals the pending tool call predicate of the batch. -/
theorem processTools_ok_bool (st st' : Client) (rs : List ContentResponse) (b : Bool)
    (h : processTools st rs = (st', .ok b)) : b = hasPendingToolCall rs := by
  by_cases hE : (collectFunctionCalls rs).isEmpty = true
  · have hnil : collectFunctionCalls rs = [] := by
      cases hcol : collectFunctionCalls rs with
      | nil => rfl
      | cons a l => rw [hcol] at hE; simp [List.isEmpty] at hE
    have hp : hasPendingToolCall rs = false := (collect_eq_nil_iff rs).mp hnil
    rw [hp]
    simp [processTools, hnil] at h
    exact h.2
  · have hne : collectFunctionCalls rs ≠ [] := fun hnil => hE (by simp [hnil])
    have hp : hasPendingToolCall rs = true := by
      cases hb : hasPendingToolCall rs
      · exact absurd ((collect_eq_nil_iff rs).mpr hb) hne
      · rfl
    have hE' : (collectFunctionCalls rs).isEmpty = false := by
      cases hv : (collectFunctionCalls rs).isEmpty
      · rfl
      · exact absurd hv hE
    rw [hp]
    simp only [processTools, hE', Bool.false_eq_true, if_false] at h
    rcases hgo : processToolsGo st (collectFunctionCalls rs) with ⟨a, u⟩
    rw [hgo] at h
    cases u with
    | error e => simp at h
    | ok u =>
        cases u
        simp at h
        exact h.2

/-- A successful pass through the resubmission loop only returns a batch the
tool scan reported free of pending calls. -/
theorem postLoop_ok_no_pending (batches : List (Except ClientError (List ContentResponse))) :
    ∀ (st : Client) (responses : List ContentResponse) (st' : Client)
      (rs : List ContentResponse),
      postLoop st responses batches = (st', .ok rs) → hasPendingToolCall rs = false := by
  induction batches with
  | nil =>
      intro st responses st' rs h
      rcases hp : processTools st responses with ⟨st1, r1⟩
      rcases r1 with e | b
      · simp [postLoop, hp] at h
      · cases b
        · simp [postLoop, hp] at h
          rw [← h.2]
          exact (processTools_ok_bool st st1 responses false hp).symm
        · simp [postLoop, hp] at h
  | cons bq rest ih =>
      intro st responses st' rs h
      rcases hp : processTools st responses with ⟨st1, r1⟩
      rcases r1 with e | b
      · simp [postLoop, hp] at h
      · cases b
        · simp [postLoop, hp] at h
          rw [← h.2]
          exact (processTools_ok_bool st st1 responses false hp).symm
        · rcases hd : doPost st1 bq with ⟨st2, r2⟩
          rcases r2 with e2 | rs2
          · simp [postLoop, hp, hd] at h
          · simp only [postLoop, hp, hd] at h
            exact ih st2 rs2 st' rs h

/-- Same property for the full post driver. -/
theorem post_ok_no_pending (st : Client)
    (batches : List (Except ClientError (List ContentResponse)))
    (st' : Client) (rs : List ContentResponse)
    (h : post st batches = (st', .ok rs)) : hasPendingToolCall rs = false := by
  cases batches with
  | nil => simp [post] at h
  | cons b rest =>
      rcases hd : doPost st b with ⟨st1, r1⟩
      rcases r1 with e | rs1
      · simp [post, hd] at h
      · simp only [post, hd] at h
        exact postLoop_ok_no_pending rest st1 rs1 st' rs h

/-! Claim C5: successful send calls return tool free batches. -/

/-- C5.  Every successful run of the driver (post), and hence every
successful send call (send_text, send_image, send_file_data), returns a
batch in which no part of any candidate of any fragment is a tool
invocation request: the loop resubmits after each dispatch and only returns
the first consolidated batch with no pending tool call. -/
theorem send_final_batch_tool_free :
    (∀ (st : Client) (batches : List (Except ClientError (List ContentResponse)))
      (st' : Client) (rs : List ContentResponse),
      post st batches = (st', Except.ok rs) → hasPendingToolCall rs = false) ∧
    (∀ (st : Client) (text : String)
      (batches : List (Except ClientError (List ContentResponse)))
      (st' : Client) (rs : List ContentResponse),
      sendText st text batches = (st', Except.ok rs) → hasPendingToolCall rs = false) ∧
    (∀ (st : Client) (blob : Blob)
      (batches : List (Except ClientError (List ContentResponse)))
      (st' : Client) (rs : List ContentResponse),
      sendImage st blob batches = (st', Except.ok rs) → hasPendingToolCall rs = false) ∧
    (∀ (st : Client) (data : GFileData)
      (batches : List (Except ClientError (List ContentResponse)))
      (st' : Client) (rs : List ContentResponse),
      sendFileData st data batches = (st', Except.ok rs) → hasPendingToolCall rs = false) := by
  refine ⟨fun st batches st' rs h => post_ok_no_pending st batches st' rs h, ?_, ?_, ?_⟩
  · intro st text batches st' rs h
    exact post_ok_no_pending (pushUserTurn st [GPart.text text]) batches st' rs h
  · intro st blob batches st' rs h
    exact post_ok_no_pending (pushUserTurn st [GPart.inlineData blob]) batches st' rs h
  · intro st data batches st' rs h
    exact post_ok_no_pending (pushUserTurn st [GPart.fileData data]) batches st' rs h

/-- Witness for C5: a concrete send_text call that succeeds immediately. -/
theorem send_final_batch_tool_free_witness :
    hasPendingToolCall [modelTextFragment] = false :=
  send_final_batch_tool_free.2.1 client0 "hi" [.ok [modelTextFragment]]
    (sendText client0 "hi" [.ok [modelTextFragment]]).1 [modelTextFragment] rfl

/-! Claim C8: the scan flag of process_tools. -/

/-- C8.  For every batch, a successful process_tools run reports dispatch
(returns true) exactly when some part of some candidate in some fragment of
the batch is a tool invocation request; every other part kind is ignored by
the scan (partToFunctionCall maps it to none). -/
theorem processTools_true_iff_pending (st st' : Client) (rs : List ContentResponse)
    (b : Bool) (h : processTools st rs = (st', .ok b)) :
    (b = true ↔ hasPendingToolCall rs = true) := by
  rw [processTools_ok_bool st st' rs b h]

/-- Witness for C8: the two invocation batch reports dispatch. -/
theorem processTools_true_iff_pending_witness :
    (true = true ↔ hasPendingToolCall [twoCallFragment] = true) :=
  processTools_true_iff_pending toolClient
    (processTools toolClient [twoCallFragment]).1 [twoCallFragment] true rfl

/-! Claim C7: collaborator resolution for a pending invocation. -/

/-- C7.  For every pending invocation: the owning collaborator is resolved
by a linear scan over the declared tool blocks sent with the request for the
first block containing a function of exactly the invocation name, and the
collaborator at the same position of the registration list is invoked; the
dispatch fails with NotFound when no declaration matches, and with NotFound
when the registration has no collaborator at the matched position; a failing
dispatch leaves the client state, and in particular the turn sequence,
unchanged (tool_call borrows immutably and the dispatch loop only appends
after a successful call). -/
theorem toolCall_resolution (st : Client) (fc : FunctionCall) :
    ((∀ t ∈ st.request.tools, ∀ f ∈ t.functionDeclarations, f.name ≠ fc.name) →
        toolCall st fc = .error (.notFound fc.name)) ∧
    (∀ i, findFirstIdx
        (fun t => t.functionDeclarations.any (fun f => f.name == fc.name))
        st.request.tools = some i →
      (st.mcps[i]? = none →
        toolCall st fc = .error (.notFound ("Tool for function call " ++ fc.name))) ∧
      (∀ c, st.mcps[i]? = some c →
        toolCall st fc =
          match c.callTool fc.name fc.args with
          | .error e => .error e
          | .ok response => .ok (response.map (contentItemToPart fc.name)))) ∧
    (∀ (rest : List FunctionCall) (e : ClientError), toolCall st fc = .error e →
        processToolsGo st (fc :: rest) = (st, .error e)) := by
  refine ⟨?_, ?_, ?_⟩
  · intro h
    have hnone : findFirstIdx
        (fun t => t.functionDeclarations.any (fun f => f.name == fc.name))
        st.request.tools = none := by
      apply findFirstIdx_eq_none
      intro t ht
      rw [List.any_eq_false]
      intro f hf
      simp only [beq_iff_eq]
      exact h t ht f hf
    simp [toolCall, hnone]
  · intro i hi
    constructor
    · intro hm
      simp [toolCall, hi, hm]
    · intro c hm
      simp [toolCall, hi, hm]
  · intro rest e he
    simp [processToolsGo, he]

/-- Witness for C7: the four behaviors at concrete clients — an undeclared
name, a declared name with no collaborator at its position, a declared name
with its collaborator, and the unchanged state of a failing dispatch. -/
theorem toolCall_resolution_witness :
    toolCall toolClient gCall = .error (.notFound "g") ∧
    toolCall toolClientNoMcp fCall =
      .error (.notFound ("Tool for function call " ++ "f")) ∧
    toolCall toolClient fCall =
      (match echoCollaborator.callTool fCall.name fCall.args with
       | .error e => .error e
       | .ok response => .ok (response.map (contentItemToPart fCall.name))) ∧
    processToolsGo toolClientNoMcp [fCall] =
      (toolClientNoMcp, .error (.notFound ("Tool for function call " ++ "f"))) := by
  refine ⟨?_, ?_, ?_, ?_⟩
  · exact (toolCall_resolution toolClient gCall).1 (by decide)
  · exact ((toolCall_resolution toolClientNoMcp fCall).2.1 0 rfl).1 rfl
  · exact ((toolCall_resolution toolClient fCall).2.1 0 rfl).2 echoCollaborator rfl
  · exact (toolCall_resolution toolClientNoMcp fCall).2.2 [] _
      (((toolCall_resolution toolClientNoMcp fCall).2.1 0 rfl).1 rfl)

/-! Claim C3: tool list conversion degrades per tool. -/

/-- C3 (amended).  A schema conversion failure is non fatal and confined to
the failing tool: the whole collaborator tool list is still converted (one
declaration per tool, none omitted), the failing tool is declared with its
name and description but with no parameter schema, and every tool whose
schema converts keeps its converted schema.  The original claim that the
affected tool is omitted from the declared tool list is refuted by
schema_failure_not_omitted_cex. -/
theorem tool_conversion_nonfatal (conv : ToolInputSchema → Except RequestError Schema)
    (ts : List McpTool) (t : McpTool) (e : RequestError)
    (hf : conv t.inputSchema = .error e) :
    (toolOfMcpTools conv ts).functionDeclarations
      = ts.map (functionDeclarationOfMcpTool conv) ∧
    functionDeclarationOfMcpTool conv t =
      { name := t.name, description := t.description.getD "None",
        parameters := none, response := none } ∧
    (∀ (u : McpTool) (s : Schema), conv u.inputSchema = .ok s →
      (functionDeclarationOfMcpTool conv u).parameters = some s) := by
  refine ⟨rfl, ?_, ?_⟩
  · simp [functionDeclarationOfMcpTool, hf, Except.toOption]
  · intro u s h
    simp [functionDeclarationOfMcpTool, h, Except.toOption]

/-- Witness for C3 at the concrete failing conversion. -/
theorem tool_conversion_nonfatal_witness :
    (toolOfMcpTools convW [badTool, goodTool]).functionDeclarations
      = [badTool, goodTool].map (functionDeclarationOfMcpTool convW) ∧
    functionDeclarationOfMcpTool convW badTool =
      { name := badTool.name, description := badTool.description.getD "None",
        parameters := none, response := none } ∧
    (∀ (u : McpTool) (s : Schema), convW u.inputSchema = .ok s →
      (functionDeclarationOfMcpTool convW u).parameters = some s) :=
  tool_conversion_nonfatal convW [badTool, goodTool] badTool
    (.serde "unsupported constraint combination") rfl

/-- Counterexample for C3 as stated: the conversion fails on the schema of
bad_tool, yet bad_tool is still present in the declared list (with empty
parameters); nothing is omitted. -/
theorem schema_failure_not_omitted_cex :
    convW badTool.inputSchema = .error (.serde "unsupported constraint combination") ∧
    (toolOfMcpTools convW [badTool, goodTool]).functionDeclarations.map
      FunctionDeclaration.name = ["bad_tool", "good_tool"] ∧
    (toolOfMcpTools convW [badTool, goodTool]).functionDeclarations.map
      FunctionDeclaration.parameters = [none, some schemaW] :=
  ⟨rfl, rfl, rfl⟩

/-! Claim C10: model name parsing. -/

/-- A list begins with itself, whatever follows. -/
theorem beginsWith_append_self (l t : List Char) : beginsWith l (l ++ t) = true := by
  induction l with
  | nil => rfl
  | cons c cs ih => simp [beginsWith, ih]

/-- Only the empty pattern begins the empty list. -/
theorem beginsWith_nil_right (pat : List Char) (h : beginsWith pat [] = true) : pat = [] := by
  cases pat with
  | nil => rfl
  | cons p ps => simp [beginsWith] at h

/-- A list that begins with the pattern is the pattern followed by the rest. -/
theorem eq_append_drop_of_beginsWith (pat : List Char) :
    ∀ s : List Char, beginsWith pat s = true → s = pat ++ s.drop pat.length := by
  induction pat with
  | nil => intro s _; simp
  | cons p ps ih =>
      intro s h
      cases s with
      | nil => simp [beginsWith] at h
      | cons c cs =>
          by_cases hpc : p = c
          · subst hpc
            simp only [beginsWith, if_pos rfl] at h
            have h2 := ih cs h
            show p :: cs = p :: (ps ++ cs.drop ps.length)
            exact congrArg (fun x => p :: x) h2
          · simp [beginsWith, hpc] at h

/-- A prefix test never looks past the pattern length. -/
theorem beginsWith_append_of_le (pat : List Char) :
    ∀ (x y : List Char), pat.length ≤ x.length →
      beginsWith pat (x ++ y) = beginsWith pat x := by
  induction pat with
  | nil => intro x y _; rfl
  | cons p ps ih =>
      intro x y h
      cases x with
      | nil => simp at h
      | cons a xs =>
          simp only [List.cons_append, beginsWith]
          by_cases hpa : p = a
          · simp only [hpa, if_pos rfl]
            exact ih xs y (by simpa using h)
          · simp [hpa]

/-- Soundness of the split: a successful split decomposes the input around
the pattern. -/
theorem splitOnce_sound (pat : List Char) :
    ∀ (s a b : List Char), splitOnceChars pat s = some (a, b) → s = a ++ (pat ++ b) := by
  intro s
  induction s with
  | nil =>
      intro a b h
      simp only [splitOnceChars] at h
      by_cases hb : beginsWith pat [] = true
      · rw [if_pos hb] at h
        have hpat : pat = [] := beginsWith_nil_right pat hb
        simp only [Option.some.injEq, Prod.mk.injEq] at h
        obtain ⟨ha, hbb⟩ := h
        subst ha
        subst hbb
        simp [hpat]
      · rw [if_neg hb] at h
        exact absurd h (by simp)
  | cons c cs ih =>
      intro a b h
      simp only [splitOnceChars] at h
      by_cases hb : beginsWith pat (c :: cs) = true
      · rw [if_pos hb] at h
        simp only [Option.some.injEq, Prod.mk.injEq] at h
        obtain ⟨ha, hbb⟩ := h
        subst ha
        subst hbb
        simpa using eq_append_drop_of_beginsWith pat (c :: cs) hb
      · rw [if_neg hb] at h
        rcases hsp : splitOnceChars pat cs with _ | ⟨pre, post⟩
        · rw [hsp] at h
          exact absurd h (by simp)
        · rw [hsp] at h
          simp only [Option.some.injEq, Prod.mk.injEq] at h
          obtain ⟨ha, hbb⟩ := h
          subst ha
          subst hbb
          have h2 := ih pre post hsp
          simp [h2]

/-- Dropping the length of the left part of an append leaves the right
part. -/
theorem drop_length_append (l t : List Char) : (l ++ t).drop l.length = t := by
  induction l with
  | nil => rfl
  | cons c cs ih => simp [ih]

/-- Completeness of the split at a marked position: when the pattern occurs
nowhere earlier, the split cuts exactly there. -/
theorem splitOnce_at_first (pat : List Char) (hne : pat ≠ []) :
    ∀ (a b : List Char),
      (∀ i, i < a.length → beginsWith pat (a.drop i ++ pat) = false) →
      splitOnceChars pat (a ++ (pat ++ b)) = some (a, b) := by
  intro a
  induction a with
  | nil =>
      intro b _
      cases hp : pat with
      | nil => exact absurd hp hne
      | cons p ps =>
          subst hp
          rw [List.nil_append, List.cons_append]
          have hbw : beginsWith (p :: ps) (p :: (ps ++ b)) = true := by
            have hb2 := beginsWith_append_self (p :: ps) b
            rw [List.cons_append] at hb2
            exact hb2
          have hdrop : (p :: (ps ++ b)).drop (p :: ps).length = b := by
            have hd2 := drop_length_append (p :: ps) b
            rw [List.cons_append] at hd2
            exact hd2
          simp only [splitOnceChars]
          simp [hbw, hdrop]
  | cons c a' ih =>
      intro b h
      have h0 : beginsWith pat ((c :: a') ++ pat) = false := by
        have h00 := h 0 (Nat.succ_pos a'.length)
        simp only [List.drop_zero] at h00
        exact h00
      have hlen : pat.length ≤ ((c :: a') ++ pat).length := by
        simp only [List.length_append, List.length_cons]
        omega
      have hfull : beginsWith pat (c :: (a' ++ (pat ++ b))) = false := by
        have heq := beginsWith_append_of_le pat ((c :: a') ++ pat) b hlen
        rw [List.append_assoc, List.cons_append] at heq
        rw [heq]
        exact h0
      rw [List.cons_append]
      simp only [splitOnceChars]
      simp only [hfull, Bool.false_eq_true, if_false]
      rw [ih b (fun i hi => by
        have hh := h (i + 1) (Nat.succ_lt_succ hi)
        simp only [List.drop_succ_cons] at hh
        exact hh)]

/-- The base name match only succeeds on supported base names. -/
theorem lookupVariant_mem (m : List Char) (v : GoogleModelVariant)
    (h : lookupVariant m = some v) : m ∈ supportedBaseNames := by
  unfold lookupVariant at h
  split_ifs at h with h1 h2 h3 h4 h5
  all_goals simp_all [supportedBaseNames]

/-- C10.  Model name parsing round trips: every supported base name, and
every supported base name followed by the preview marker and any suffix,
parses successfully into a model whose name field equals the input; every
string whose part before the first preview marker occurrence (or the whole
string when the marker is absent) is not a supported base name yields a
NotFound error. -/
theorem googleModel_parse_roundtrip :
    (∀ base ∈ supportedBaseNames, ∃ g, googleModelTryFrom base = .ok g ∧ g.name = base) ∧
    (∀ base ∈ supportedBaseNames, ∀ suffix : List Char,
      ∃ g, googleModelTryFrom (base ++ previewPat ++ suffix) = .ok g ∧
        g.name = base ++ previewPat ++ suffix) ∧
    (∀ value : List Char, preSplit value ∉ supportedBaseNames →
      googleModelTryFrom value = .error (.notFound ("No such model: ".data ++ value))) := by
  refine ⟨?_, ?_, ?_⟩
  · intro base hb
    simp only [supportedBaseNames, List.mem_cons, List.not_mem_nil, or_false] at hb
    rcases hb with rfl | rfl | rfl | rfl | rfl
    · exact ⟨GoogleModel.new .gemini20FlashExpImageGen none, rfl, rfl⟩
    · exact ⟨GoogleModel.new .gemini20Flash none, rfl, rfl⟩
    · exact ⟨GoogleModel.new .gemini25Flash none, rfl, rfl⟩
    · exact ⟨GoogleModel.new .gemini25FlashLight none, rfl, rfl⟩
    · exact ⟨GoogleModel.new .gemini25Pro none, rfl, rfl⟩
  · intro base hb suffix
    simp only [supportedBaseNames, List.mem_cons, List.not_mem_nil, or_false] at hb
    rcases hb with rfl | rfl | rfl | rfl | rfl
    · have hsp : splitOnceChars previewPat
          (GEMINI_2_0_FLASH_EXP_IMAGE_GEN ++ (previewPat ++ suffix)) =
            some (GEMINI_2_0_FLASH_EXP_IMAGE_GEN, suffix) :=
        splitOnce_at_first previewPat (by decide) GEMINI_2_0_FLASH_EXP_IMAGE_GEN suffix
          (by decide)
      refine ⟨GoogleModel.new .gemini20FlashExpImageGen (some ("preview".data ++ suffix)), ?_, rfl⟩
      rw [List.append_assoc]
      unfold googleModelTryFrom
      rw [hsp]
      rfl
    · have hsp : splitOnceChars previewPat (GEMINI_2_0_FLASH ++ (previewPat ++ suffix)) =
            some (GEMINI_2_0_FLASH, suffix) :=
        splitOnce_at_first previewPat (by decide) GEMINI_2_0_FLASH suffix (by decide)
      refine ⟨GoogleModel.new .gemini20Flash (some ("preview".data ++ suffix)), ?_, rfl⟩
      rw [List.append_assoc]
      unfold googleModelTryFrom
      rw [hsp]
      rfl
    · have hsp : splitOnceChars previewPat (GEMINI_2_5_FLASH ++ (previewPat ++ suffix)) =
            some (GEMINI_2_5_FLASH, suffix) :=
        splitOnce_at_first previewPat (by decide) GEMINI_2_5_FLASH suffix (by decide)
      refine ⟨GoogleModel.new .gemini25Flash (some ("preview".data ++ suffix)), ?_, rfl⟩
      rw [List.append_assoc]
      unfold googleModelTryFrom
      rw [hsp]
      rfl
    · have hsp : splitOnceChars previewPat (GEMINI_2_5_FLASH_LITE ++ (previewPat ++ suffix)) =
            some (GEMINI_2_5_FLASH_LITE, suffix) :=
        splitOnce_at_first previewPat (by decide) GEMINI_2_5_FLASH_LITE suffix (by decide)
      refine ⟨GoogleModel.new .gemini25FlashLight (some ("preview".data ++ suffix)), ?_, rfl⟩
      rw [List.append_assoc]
      unfold googleModelTryFrom
      rw [hsp]
      rfl
    · have hsp : splitOnceChars previewPat (GEMINI_2_5_PRO ++ (previewPat ++ suffix)) =
            some (GEMINI_2_5_PRO, suffix) :=
        splitOnce_at_first previewPat (by decide) GEMINI_2_5_PRO suffix (by decide)
      refine ⟨GoogleModel.new .gemini25Pro (some ("preview".data ++ suffix)), ?_, rfl⟩
      rw [List.append_assoc]
      unfold googleModelTryFrom
      rw [hsp]
      rfl
  · intro value hv
    have hlv : lookupVariant (preSplit value) = none := by
      cases hl : lookupVariant (preSplit value) with
      | none => rfl
      | some v => exact absurd (lookupVariant_mem _ v hl) hv
    cases hsp : splitOnceChars previewPat value with
    | none =>
        have hpre : preSplit value = value := by simp [preSplit, hsp]
        rw [hpre] at hlv
        simp only [googleModelTryFrom, hsp, hlv]
    | some p =>
        rcases p with ⟨model, rest⟩
        have hpre : preSplit value = model := by simp [preSplit, hsp]
        rw [hpre] at hlv
        simp only [googleModelTryFrom, hsp, hlv]

/-- Witness for C10: a bare base name, a previewed name with suffix, and an
unsupported name. -/
theorem googleModel_parse_roundtrip_witness :
    (∃ g, googleModelTryFrom GEMINI_2_5_FLASH = .ok g ∧ g.name = GEMINI_2_5_FLASH) ∧
    (∃ g, googleModelTryFrom (GEMINI_2_5_PRO ++ previewPat ++ "-06-05".data) = .ok g ∧
      g.name = GEMINI_2_5_PRO ++ previewPat ++ "-06-05".data) ∧
    googleModelTryFrom ("gemini-3.0".data) =
      .error (.notFound ("No such model: ".data ++ "gemini-3.0".data)) := by
  refine ⟨?_, ?_, ?_⟩
  · exact googleModel_parse_roundtrip.1 GEMINI_2_5_FLASH (by decide)
  · exact googleModel_parse_roundtrip.2.1 GEMINI_2_5_PRO (by decide) ("-06-05".data)
  · exact googleModel_parse_roundtrip.2.2 ("gemini-3.0".data) (by decide)

end Gemini
